import Mathlib

/-!
Shallow embedding of the data-fetch-and-cache core of the asset-forecasting
repository (src/src/data_loader.py).  Dates are modelled as calendar triples
compared lexicographically (matching Python datetime comparison); a pandas
DataFrame is a column list plus a list of date-indexed rows; the remote
collaborator and cache storage are an environment of oracle responses, each
of which may raise (PyRes.exn) or return a frame.
-/

namespace AssetForecast

/-- A Python exception-or-value result: an operation either returns a value
or raises (the exception payload is irrelevant to control flow). -/
inductive PyRes (α : Type) where
  | ok (val : α)
  | exn
deriving DecidableEq, Repr

/-- A timezone-naive Python datetime, modelled at calendar-day granularity
(year, month, day), compared lexicographically as datetime does. -/
structure PyDateTime where
  year : Nat
  month : Nat
  day : Nat
deriving DecidableEq, Repr

/-- Lexicographic `<=` on datetimes, as Python compares datetime objects. -/
def PyDateTime.le (a b : PyDateTime) : Bool :=
  a.year < b.year ||
    (a.year == b.year &&
      (a.month < b.month || (a.month == b.month && a.day ≤ b.day)))

/-- Lexicographic `<` on datetimes. -/
def PyDateTime.lt (a b : PyDateTime) : Bool :=
  a.year < b.year ||
    (a.year == b.year &&
      (a.month < b.month || (a.month == b.month && a.day < b.day)))

/-- START_DATE = datetime(2020, 12, 14). -/
def START_DATE : PyDateTime := ⟨2020, 12, 14⟩

/-- END_DATE = datetime(2025, 12, 12). -/
def END_DATE : PyDateTime := ⟨2025, 12, 12⟩

/-- A pandas timestamp in a DataFrame index: a naive datetime value plus an
optional timezone annotation (stripped by tz_localize(None)). -/
structure Timestamp where
  dt : PyDateTime
  tz : Option Int
deriving DecidableEq, Repr

/-- One DataFrame row: its index timestamp and its cells (column, value). -/
structure Row where
  date : Timestamp
  cells : List (String × Int)
deriving DecidableEq, Repr

/-- A pandas DataFrame: column names and date-indexed rows. -/
structure DataFrame where
  cols : List String
  rows : List Row
deriving DecidableEq, Repr

/-- pd.DataFrame(): the fresh empty frame. -/
def emptyDF : DataFrame := ⟨[], []⟩

/-- tz_localize(None) on one row: drop the timezone annotation. -/
def stripTz (r : Row) : Row := { r with date := { r.date with tz := none } }

/-- _normalize_index: convert the index to timezone-naive datetimes
(if data.empty: return data unchanged). -/
def normalizeIndex (df : DataFrame) : DataFrame :=
  if df.rows.isEmpty then df
  else { df with rows := df.rows.map stripTz }

/-- The boolean mask START_DATE <= index <= END_DATE (inclusive). -/
def inWindow (t : Timestamp) : Bool :=
  PyDateTime.le START_DATE t.dt && PyDateTime.le t.dt END_DATE

/-- _filter_to_date_range: if empty return unchanged, else normalize the
index and keep only rows inside [START_DATE, END_DATE]. -/
def filterToDateRange (df : DataFrame) : DataFrame :=
  if df.rows.isEmpty then df
  else
    let d := normalizeIndex df
    { d with rows := d.rows.filter (fun r => inWindow r.date) }

/-- The persisted cache: entries keyed by ticker; each stored entry either
parses to a frame on read or raises (malformed content). New writes shadow
older entries. -/
abbrev Cache : Type := List (String × PyRes DataFrame)

/-- Look up the cache entry for a ticker (first match wins). -/
def cacheLookup (cache : Cache) (t : String) : Option (PyRes DataFrame) :=
  match cache with
  | [] => none
  | (k, v) :: rest => if k = t then some v else cacheLookup rest t

/-- _load_from_cache: missing file gives None; a read that raises is caught
and gives None; otherwise the frame is normalized and window-filtered.
The PyRes return type records that nothing escapes this function. -/
def loadFromCache (cache : Cache) (t : String) : PyRes (Option DataFrame) :=
  match cacheLookup cache t with
  | none => PyRes.ok none
  | some PyRes.exn => PyRes.ok none
  | some (PyRes.ok df) => PyRes.ok (some (filterToDateRange (normalizeIndex df)))

/-- _save_to_cache: empty data is not written; the filtered-then-normalized
frame is written; a write that raises (saveOk = false) is caught and leaves
the cache unchanged. -/
def saveToCache (saveOk : Bool) (cache : Cache) (t : String) (df : DataFrame) : Cache :=
  if df.rows.isEmpty then cache
  else if saveOk then (t, PyRes.ok (normalizeIndex (filterToDateRange df))) :: cache
  else cache

/-- Cell lookup within a row (pandas column access on that row). -/
def lookupCell (cells : List (String × Int)) (c : String) : Int :=
  match cells with
  | [] => 0
  | (k, v) :: rest => if k = c then v else lookupCell rest c

/-- The Adj Close defaulting step of fetch_yfinance: if "Adj Close" is not a
column and "Close" is, append an "Adj Close" column equal to "Close". -/
def ensureAdjClose (df : DataFrame) : DataFrame :=
  if "Adj Close" ∈ df.cols then df
  else if "Close" ∈ df.cols then
    { cols := df.cols ++ ["Adj Close"],
      rows := df.rows.map
        (fun r => { r with cells := r.cells ++ [("Adj Close", lookupCell r.cells "Close")] }) }
  else df

/-- A request to the remote market-data collaborator: either a start/end
history request or a relative-period history request. -/
inductive HistReq where
  | startEnd (ticker startD endD interval : String)
  | byPeriod (ticker per interval : String)
deriving DecidableEq, Repr

/-- (START_DATE - timedelta(days=7)).strftime("%Y-%m-%d"). -/
def requestStart : String := "2020-12-07"

/-- (END_DATE + timedelta(days=1)).strftime("%Y-%m-%d") (yfinance end is exclusive). -/
def requestEnd : String := "2025-12-13"

/-- Observable side effects of one fetch call, in order of occurrence. -/
inductive Event where
  | sleepInit
  | sleepBackoff (attempt : Nat)
  | fetchAttempt (attempt : Nat)
  | remoteCall (req : HistReq)
deriving DecidableEq, Repr

/-- _fetch_data: try the start/end request; if it raises, fall back to the
period="5y" request; if that also raises, return an empty frame. Non-empty
results are window-filtered. Returns the frame and the remote calls made. -/
def fetchData (oracle : HistReq → PyRes DataFrame) (ticker interval : String) :
    DataFrame × List Event :=
  let req1 := HistReq.startEnd ticker requestStart requestEnd interval
  match oracle req1 with
  | PyRes.ok df =>
      (if df.rows.isEmpty then df else filterToDateRange df, [Event.remoteCall req1])
  | PyRes.exn =>
      let req2 := HistReq.byPeriod ticker "5y" interval
      match oracle req2 with
      | PyRes.ok df =>
          (if df.rows.isEmpty then df else filterToDateRange df,
            [Event.remoteCall req1, Event.remoteCall req2])
      | PyRes.exn => (emptyDF, [Event.remoteCall req1, Event.remoteCall req2])

/-- The environment a fetch call runs against: the initial cache state, the
remote collaborator (a response, possibly an exception, for each attempt
index and request), and whether cache writes succeed. -/
structure Env where
  cache : Cache
  hist : Nat → HistReq → PyRes DataFrame
  saveOk : Bool

/-- The outcome of one fetch call: the returned frame, the final cache
state, and the emitted side effects. -/
structure FetchOut where
  result : DataFrame
  cache : Cache
  events : List Event
deriving DecidableEq, Repr

/-- The retry loop of fetch_yfinance, with fuel = number of iterations that
remain (initially max_retries; after matching fuel + 1 the current iteration
is the last one exactly when the remaining fuel is 0, matching the
attempt < max_retries - 1 test in the source).
On a non-empty result the Adj Close column is defaulted, the frame is
written to cache when use_cache is true, and the frame is returned; an
empty result retries, or yields a fresh empty frame on the last attempt. -/
def fetchLoop (env : Env) (ticker interval : String) (useCache : Bool) :
    Nat → Nat → Cache → FetchOut
  | _, 0, cache => ⟨emptyDF, cache, []⟩
  | attempt, fuel + 1, cache =>
    let backoffEvs := if 0 < attempt then [Event.sleepBackoff attempt] else []
    let fd := fetchData (env.hist attempt) ticker interval
    let evs := backoffEvs ++ Event.fetchAttempt attempt :: fd.2
    if fd.1.rows.isEmpty then
      if fuel = 0 then ⟨emptyDF, cache, evs⟩
      else
        let rest := fetchLoop env ticker interval useCache (attempt + 1) fuel cache
        ⟨rest.result, rest.cache, evs ++ rest.events⟩
    else
      let data2 := ensureAdjClose fd.1
      let cache2 := if useCache then saveToCache env.saveOk cache ticker data2 else cache
      ⟨data2, cache2, evs⟩

/-- fetch_yfinance: consult the cache when use_cache or cache_only is set
and return a hit immediately; in cache-only mode a miss returns an empty
frame; otherwise sleep once and run the retry loop. The PyRes return type
records whether any exception escapes the function. -/
def fetch_yfinance (env : Env) (ticker : String) (per : String) (interval : String)
    (useCache : Bool) (cacheOnly : Bool) (maxRetries : Nat) : PyRes FetchOut :=
  match (if useCache || cacheOnly then loadFromCache env.cache ticker else PyRes.ok none) with
  | PyRes.exn => PyRes.exn
  | PyRes.ok cachedOpt =>
    match cachedOpt with
    | some df => PyRes.ok ⟨df, env.cache, []⟩
    | none =>
      if cacheOnly then PyRes.ok ⟨emptyDF, env.cache, []⟩
      else
        let out := fetchLoop env ticker interval useCache 0 maxRetries env.cache
        PyRes.ok ⟨out.result, out.cache, Event.sleepInit :: out.events⟩

/-- The dates of a frame, in row order. -/
def datesOf (df : DataFrame) : List PyDateTime := df.rows.map (fun r => r.date.dt)

/-- Strictly increasing date list (hence no duplicates). -/
def strictlyIncreasing : List PyDateTime → Bool
  | [] => true
  | [_] => true
  | a :: b :: rest => PyDateTime.lt a b && strictlyIncreasing (b :: rest)

/-- Every row of the frame lies inside the inclusive date window. -/
def dfInWindow (df : DataFrame) : Bool := df.rows.all (fun r => inWindow r.date)

/-- Number of retry-loop iterations recorded in an event list. -/
def countAttempts (evs : List Event) : Nat :=
  (evs.filter (fun e => match e with | Event.fetchAttempt _ => true | _ => false)).length

/-- Number of remote collaborator calls recorded in an event list. -/
def countRemote (evs : List Event) : Nat :=
  (evs.filter (fun e => match e with | Event.remoteCall _ => true | _ => false)).length

/-- Number of sleeps (initial delay or backoff) recorded in an event list. -/
def countSleeps (evs : List Event) : Nat :=
  (evs.filter
    (fun e => match e with
      | Event.sleepInit => true
      | Event.sleepBackoff _ => true
      | _ => false)).length

/-- Every row of the frame is timezone-naive and lies inside the window. -/
def GoodData (df : DataFrame) : Prop :=
  ∀ r ∈ df.rows, r.date.tz = none ∧ inWindow r.date = true

/-- Projection used to state concrete executions: the outcome of a call
that did not raise (a raising call is mapped to a sentinel outcome). -/
def outOf (r : PyRes FetchOut) : FetchOut :=
  match r with
  | PyRes.ok o => o
  | PyRes.exn => ⟨emptyDF, [], []⟩

/-- A two-row frame with a "Close" column, dates in increasing order. -/
def dfSorted2 : DataFrame :=
  ⟨["Close"],
    [⟨⟨⟨2021, 1, 4⟩, none⟩, [("Close", 10)]⟩,
     ⟨⟨⟨2021, 1, 5⟩, none⟩, [("Close", 11)]⟩]⟩

/-- The same two rows arriving in decreasing date order. -/
def dfUnsorted : DataFrame :=
  ⟨["Close"],
    [⟨⟨⟨2021, 1, 5⟩, none⟩, [("Close", 11)]⟩,
     ⟨⟨⟨2021, 1, 4⟩, none⟩, [("Close", 10)]⟩]⟩

/-- A one-row frame dated after END_DATE (outside the window). -/
def dfFuture : DataFrame :=
  ⟨["Close"], [⟨⟨⟨2026, 1, 1⟩, none⟩, [("Close", 10)]⟩]⟩

/-- Environment with an empty cache and a remote that always raises. -/
def envFailAll : Env := ⟨[], fun _ _ => PyRes.exn, true⟩

/-- Environment whose cache holds an out-of-order frame for ticker "T". -/
def envCacheUnsorted : Env := ⟨[("T", PyRes.ok dfUnsorted)], fun _ _ => PyRes.exn, true⟩

/-- Environment whose cache holds a frame for "T" with Close but no Adj Close. -/
def envCacheClose : Env := ⟨[("T", PyRes.ok dfSorted2)], fun _ _ => PyRes.exn, true⟩

/-- Environment whose cache holds only out-of-window data for "T". -/
def envFutureCache : Env := ⟨[("T", PyRes.ok dfFuture)], fun _ _ => PyRes.exn, true⟩

/-- Environment with an empty cache and a remote that always returns the
sorted Close-only frame. -/
def envRemoteClose : Env := ⟨[], fun _ _ => PyRes.ok dfSorted2, true⟩

theorem stripTz_eq_self (r : Row) (h : r.date.tz = none) : stripTz r = r := by
  cases r with
  | mk d cells =>
    cases d with
    | mk dt tz =>
      have h2 : tz = none := h
      subst h2
      rfl

theorem map_stripTz_eq_self :
    ∀ (l : List Row), (∀ r ∈ l, r.date.tz = none) → l.map stripTz = l := by
  intro l h
  induction l with
  | nil => rfl
  | cons a t ih =>
    simp only [List.map_cons]
    rw [stripTz_eq_self a (h a (by simp)), ih (fun r hr => h r (by simp [hr]))]

theorem normalizeIndex_eq_self (df : DataFrame) (h : ∀ r ∈ df.rows, r.date.tz = none) :
    normalizeIndex df = df := by
  unfold normalizeIndex
  by_cases he : df.rows.isEmpty
  · simp [he]
  · simp only [he, Bool.false_eq_true, if_false]
    cases df with
    | mk cols rows =>
      simp only
      rw [map_stripTz_eq_self rows h]

theorem goodData_empty : GoodData emptyDF := by
  intro r hr
  cases hr

theorem goodData_filterToDateRange (df : DataFrame) : GoodData (filterToDateRange df) := by
  unfold GoodData filterToDateRange
  by_cases he : df.rows.isEmpty
  · simp only [he, if_true]
    intro r hr
    rw [List.isEmpty_iff.mp he] at hr
    cases hr
  · simp only [he, Bool.false_eq_true, if_false]
    intro r hr
    simp only [normalizeIndex, he, Bool.false_eq_true, if_false] at hr
    rcases List.mem_filter.mp hr with ⟨hmem, hwin⟩
    rcases List.mem_map.mp hmem with ⟨r0, _, hr0⟩
    refine ⟨?_, hwin⟩
    rw [← hr0]
    rfl

theorem filterToDateRange_eq_self (df : DataFrame) (h : GoodData df) :
    filterToDateRange df = df := by
  unfold filterToDateRange
  by_cases he : df.rows.isEmpty
  · simp [he]
  · simp only [he, Bool.false_eq_true, if_false]
    rw [normalizeIndex_eq_self df (fun r hr => (h r hr).1)]
    cases df with
    | mk cols rows =>
      simp only
      rw [List.filter_eq_self.mpr (fun r hr => (h r hr).2)]

theorem goodData_dfInWindow (df : DataFrame) (h : GoodData df) : dfInWindow df = true := by
  unfold dfInWindow
  exact List.all_eq_true.mpr (fun r hr => (h r hr).2)

theorem ensureAdjClose_dates (df : DataFrame) :
    (ensureAdjClose df).rows.map (fun r => r.date) = df.rows.map (fun r => r.date) := by
  unfold ensureAdjClose
  by_cases h1 : "Adj Close" ∈ df.cols
  · simp [h1]
  · by_cases h2 : "Close" ∈ df.cols
    · simp only [h1, h2, if_false, if_true]
      rw [List.map_map]
      rfl
    · simp [h1, h2]

theorem datesOf_ensureAdjClose (df : DataFrame) : datesOf (ensureAdjClose df) = datesOf df := by
  unfold datesOf
  have h2 :
      (ensureAdjClose df).rows.map ((fun t : Timestamp => t.dt) ∘ (fun r : Row => r.date)) =
        df.rows.map ((fun t : Timestamp => t.dt) ∘ (fun r : Row => r.date)) := by
    rw [← List.map_map, ← List.map_map, ensureAdjClose_dates df]
  exact h2

theorem goodData_ensureAdjClose (df : DataFrame) (h : GoodData df) :
    GoodData (ensureAdjClose df) := by
  intro r hr
  have hm : r.date ∈ (ensureAdjClose df).rows.map (fun r => r.date) :=
    List.mem_map.mpr ⟨r, hr, rfl⟩
  rw [ensureAdjClose_dates df] at hm
  rcases List.mem_map.mp hm with ⟨r0, hr0, hd⟩
  rcases h r0 hr0 with ⟨ht, hw⟩
  exact ⟨by rw [← hd]; exact ht, by rw [← hd]; exact hw⟩

theorem ensureAdjClose_rows_nil_iff (df : DataFrame) :
    (ensureAdjClose df).rows = [] ↔ df.rows = [] := by
  constructor <;> intro h
  · have hm := ensureAdjClose_dates df
    rw [h] at hm
    simp only [List.map_nil] at hm
    exact List.map_eq_nil_iff.mp hm.symm
  · have hm := ensureAdjClose_dates df
    rw [h] at hm
    simp only [List.map_nil] at hm
    exact List.map_eq_nil_iff.mp hm

theorem fetchData_good (oracle : HistReq → PyRes DataFrame) (t i : String) :
    GoodData (fetchData oracle t i).1 := by
  simp only [fetchData]
  cases ho : oracle (HistReq.startEnd t requestStart requestEnd i) with
  | ok df =>
    show GoodData (if df.rows.isEmpty then df else filterToDateRange df)
    by_cases he : df.rows.isEmpty
    · simp only [he, if_true]
      intro r hr
      rw [List.isEmpty_iff.mp he] at hr
      cases hr
    · simp only [he, Bool.false_eq_true, if_false]
      exact goodData_filterToDateRange df
  | exn =>
    cases h2 : oracle (HistReq.byPeriod t "5y" i) with
    | ok df =>
      show GoodData (if df.rows.isEmpty then df else filterToDateRange df)
      by_cases he : df.rows.isEmpty
      · simp only [he, if_true]
        intro r hr
        rw [List.isEmpty_iff.mp he] at hr
        cases hr
      · simp only [he, Bool.false_eq_true, if_false]
        exact goodData_filterToDateRange df
    | exn => exact goodData_empty

theorem countAttempts_append (a b : List Event) :
    countAttempts (a ++ b) = countAttempts a + countAttempts b := by
  unfold countAttempts
  rw [List.filter_append, List.length_append]

theorem countAttempts_cons_attempt (k : Nat) (l : List Event) :
    countAttempts (Event.fetchAttempt k :: l) = countAttempts l + 1 := by
  unfold countAttempts
  simp [List.filter_cons]

theorem countAttempts_sleepInit (l : List Event) :
    countAttempts (Event.sleepInit :: l) = countAttempts l := by
  unfold countAttempts
  simp [List.filter_cons]

theorem countAttempts_backoff (k : Nat) (l : List Event) :
    countAttempts (Event.sleepBackoff k :: l) = countAttempts l := by
  unfold countAttempts
  simp [List.filter_cons]

theorem countAttempts_remote (q : HistReq) (l : List Event) :
    countAttempts (Event.remoteCall q :: l) = countAttempts l := by
  unfold countAttempts
  simp [List.filter_cons]

theorem cacheLookup_cons_self (t : String) (v : PyRes DataFrame) (c : Cache) :
    cacheLookup ((t, v) :: c) t = some v := by
  simp [cacheLookup]


theorem countAttempts_pos_of_mem (k : Nat) (evs : List Event)
    (h : Event.fetchAttempt k ∈ evs) : 1 ≤ countAttempts evs := by
  unfold countAttempts
  have hm : Event.fetchAttempt k ∈
      evs.filter (fun e => match e with | Event.fetchAttempt _ => true | _ => false) :=
    List.mem_filter.mpr ⟨h, rfl⟩
  exact List.length_pos.mpr (List.ne_nil_of_mem hm)

theorem fetchLoop_spec (env : Env) (t i : String) (uc : Bool) :
    ∀ fuel attempt cache,
      GoodData (fetchLoop env t i uc attempt fuel cache).result ∧
      ((fetchLoop env t i uc attempt fuel cache).result.rows = [] →
        (fetchLoop env t i uc attempt fuel cache).cache = cache ∧
        (fetchLoop env t i uc attempt fuel cache).result = emptyDF) ∧
      ((fetchLoop env t i uc attempt fuel cache).result.rows ≠ [] →
        (fetchLoop env t i uc attempt fuel cache).cache =
          (if uc && env.saveOk then
            (t, PyRes.ok (fetchLoop env t i uc attempt fuel cache).result) :: cache
           else cache) ∧
        1 ≤ countAttempts (fetchLoop env t i uc attempt fuel cache).events) := by
  intro fuel
  induction fuel with
  | zero =>
    intro attempt cache
    exact ⟨goodData_empty, fun _ => ⟨rfl, rfl⟩, fun hne => absurd rfl hne⟩
  | succ n ih =>
    intro attempt cache
    simp only [fetchLoop]
    by_cases hemp : (fetchData (env.hist attempt) t i).1.rows.isEmpty
    · simp only [hemp, if_true]
      by_cases hn : n = 0
      · simp only [hn, if_true]
        exact ⟨goodData_empty, fun _ => ⟨by trivial, by trivial⟩, fun hne => absurd rfl hne⟩
      · simp only [hn, if_false]
        rcases ih (attempt + 1) cache with ⟨ih1, ih2, ih3⟩
        refine ⟨ih1, fun h => ih2 h, fun h => ⟨(ih3 h).1, ?_⟩⟩
        have hmem : Event.fetchAttempt attempt ∈
            ((if 0 < attempt then [Event.sleepBackoff attempt] else []) ++
              Event.fetchAttempt attempt :: (fetchData (env.hist attempt) t i).2) ++
              (fetchLoop env t i uc (attempt + 1) n cache).events := by
          simp [List.mem_append]
        exact countAttempts_pos_of_mem attempt _ hmem
    · rw [Bool.not_eq_true] at hemp
      simp only [hemp, Bool.false_eq_true, if_false]
      have hgood : GoodData (ensureAdjClose (fetchData (env.hist attempt) t i).1) :=
        goodData_ensureAdjClose _ (fetchData_good (env.hist attempt) t i)
      refine ⟨hgood, ?_, ?_⟩
      · intro h
        have hnil : (fetchData (env.hist attempt) t i).1.rows = [] :=
          (ensureAdjClose_rows_nil_iff _).mp h
        exact absurd hnil (List.isEmpty_eq_false.mp hemp)
      · intro hne
        constructor
        · have hne2 : (ensureAdjClose (fetchData (env.hist attempt) t i).1).rows ≠ [] := hne
          have hsv : saveToCache env.saveOk cache t
              (ensureAdjClose (fetchData (env.hist attempt) t i).1) =
              (if env.saveOk then
                (t, PyRes.ok (ensureAdjClose (fetchData (env.hist attempt) t i).1)) :: cache
               else cache) := by
            unfold saveToCache
            have hie : (ensureAdjClose (fetchData (env.hist attempt) t i).1).rows.isEmpty = false :=
              List.isEmpty_eq_false.mpr hne2
            rw [hie]
            simp only [Bool.false_eq_true, if_false]
            rw [filterToDateRange_eq_self _ hgood,
              normalizeIndex_eq_self _ (fun r hr => (hgood r hr).1)]
          cases uc with
          | false => simp
          | true =>
            simp only [if_true, Bool.true_and]
            rw [hsv]
        · exact countAttempts_pos_of_mem attempt _ (by simp [List.mem_append])
theorem loadFromCache_never_raises (cache : Cache) (t : String) :
    ∃ o, loadFromCache cache t = PyRes.ok o := by
  unfold loadFromCache
  cases cacheLookup cache t with
  | none => exact ⟨_, rfl⟩
  | some v =>
    cases v with
    | ok df => exact ⟨_, rfl⟩
    | exn => exact ⟨_, rfl⟩

/-- Claim C2: for every input and every behavior of the remote collaborator
and of cache storage (including reads and writes that raise), fetch never
raises past its boundary: it always returns an outcome with a Series. -/
theorem fetch_never_raises (env : Env) (t per i : String) (uc co : Bool) (mr : Nat) :
    ∃ out, fetch_yfinance env t per i uc co mr = PyRes.ok out := by
  unfold fetch_yfinance
  have hload : ∃ o,
      (if uc || co then loadFromCache env.cache t else PyRes.ok none) = PyRes.ok o := by
    by_cases hb : (uc || co) = true
    · simp only [hb, if_true]
      exact loadFromCache_never_raises env.cache t
    · rw [Bool.not_eq_true] at hb
      simp only [hb, Bool.false_eq_true, if_false]
      exact ⟨none, rfl⟩
  obtain ⟨o, ho⟩ := hload
  rw [ho]
  cases o with
  | some df => exact ⟨_, rfl⟩
  | none =>
    by_cases hco : co = true
    · simp only [hco, if_true]
      exact ⟨_, rfl⟩
    · rw [Bool.not_eq_true] at hco
      simp only [hco, Bool.false_eq_true, if_false]
      exact ⟨_, rfl⟩
/-- Claim C7: in cache-only mode with no cache entry for the ticker, fetch
returns an empty Series with no remote call and no sleep, for every
max_retries. -/
theorem cacheOnly_miss_empty (env : Env) (t per i : String) (uc : Bool) (mr : Nat)
    (out : FetchOut) (hmiss : cacheLookup env.cache t = none)
    (h : fetch_yfinance env t per i uc true mr = PyRes.ok out) :
    out = ⟨emptyDF, env.cache, []⟩ ∧ countRemote out.events = 0 ∧
      countSleeps out.events = 0 := by
  unfold fetch_yfinance at h
  simp only [Bool.or_true, if_true, loadFromCache, hmiss] at h
  have hout : out = ⟨emptyDF, env.cache, []⟩ := by
    cases h
    rfl
  subst hout
  exact ⟨rfl, rfl, rfl⟩

/-- Claim C8: whenever the cache is consulted (use_cache or cache_only) and
the entry for the ticker loads successfully, fetch returns the
normalized-and-window-filtered cached frame immediately, with no remote
call, no sleep, and no cache write, regardless of window coverage. -/
theorem cacheHit_immediate (env : Env) (t per i : String) (uc co : Bool) (mr : Nat)
    (df : DataFrame) (out : FetchOut) (hb : (uc || co) = true)
    (hhit : cacheLookup env.cache t = some (PyRes.ok df))
    (h : fetch_yfinance env t per i uc co mr = PyRes.ok out) :
    out.result = filterToDateRange (normalizeIndex df) ∧ out.cache = env.cache ∧
      countRemote out.events = 0 ∧ countSleeps out.events = 0 := by
  unfold fetch_yfinance at h
  simp only [hb, if_true, loadFromCache, hhit] at h
  have hout : out = ⟨filterToDateRange (normalizeIndex df), env.cache, []⟩ := by
    cases h
    rfl
  subst hout
  exact ⟨rfl, rfl, rfl, rfl⟩

/-- Claim C10: the period argument of fetch_yfinance has no effect: calls
differing only in period have identical results and side effects. -/
theorem period_irrelevant (env : Env) (t p1 p2 i : String) (uc co : Bool) (mr : Nat) :
    fetch_yfinance env t p1 i uc co mr = fetch_yfinance env t p2 i uc co mr := rfl
theorem loadFromCache_of_none (cache : Cache) (t : String)
    (h : cacheLookup cache t = none) : loadFromCache cache t = PyRes.ok none := by
  unfold loadFromCache
  rw [h]

theorem loadFromCache_of_exn (cache : Cache) (t : String)
    (h : cacheLookup cache t = some PyRes.exn) : loadFromCache cache t = PyRes.ok none := by
  unfold loadFromCache
  rw [h]

theorem loadFromCache_of_ok (cache : Cache) (t : String) (df : DataFrame)
    (h : cacheLookup cache t = some (PyRes.ok df)) :
    loadFromCache cache t = PyRes.ok (some (filterToDateRange (normalizeIndex df))) := by
  unfold loadFromCache
  rw [h]

theorem fetch_cases (env : Env) (t per i : String) (uc co : Bool) (mr : Nat) (out : FetchOut)
    (h : fetch_yfinance env t per i uc co mr = PyRes.ok out) :
    (∃ df, cacheLookup env.cache t = some (PyRes.ok df) ∧
        out = ⟨filterToDateRange (normalizeIndex df), env.cache, []⟩) ∨
    out = ⟨emptyDF, env.cache, []⟩ ∨
    (co = false ∧
      out = ⟨(fetchLoop env t i uc 0 mr env.cache).result,
             (fetchLoop env t i uc 0 mr env.cache).cache,
             Event.sleepInit :: (fetchLoop env t i uc 0 mr env.cache).events⟩) := by
  unfold fetch_yfinance at h
  by_cases hb : (uc || co) = true
  · simp only [hb, if_true] at h
    cases hcl : cacheLookup env.cache t with
    | none =>
      rw [loadFromCache_of_none env.cache t hcl] at h
      by_cases hco : co = true
      · simp only [hco, if_true] at h
        injection h with h2
        exact Or.inr (Or.inl h2.symm)
      · rw [Bool.not_eq_true] at hco
        simp only [hco, Bool.false_eq_true, if_false] at h
        injection h with h2
        exact Or.inr (Or.inr ⟨hco, h2.symm⟩)
    | some v =>
      cases v with
      | exn =>
        rw [loadFromCache_of_exn env.cache t hcl] at h
        by_cases hco : co = true
        · simp only [hco, if_true] at h
          injection h with h2
          exact Or.inr (Or.inl h2.symm)
        · rw [Bool.not_eq_true] at hco
          simp only [hco, Bool.false_eq_true, if_false] at h
          injection h with h2
          exact Or.inr (Or.inr ⟨hco, h2.symm⟩)
      | ok df =>
        rw [loadFromCache_of_ok env.cache t df hcl] at h
        injection h with h2
        exact Or.inl ⟨df, rfl, h2.symm⟩
  · rw [Bool.not_eq_true] at hb
    simp only [hb, Bool.false_eq_true, if_false] at h
    have hco : co = false := (Bool.or_eq_false_iff.mp hb).2
    simp only [hco, Bool.false_eq_true, if_false] at h
    injection h with h2
    exact Or.inr (Or.inr ⟨hco, h2.symm⟩)

/-- Claim C1: every Series returned by fetch, and every Series written to
the cache, lies inside the inclusive DateWindow, on all paths (cache hit,
cache-only, remote fetch including the period fallback). -/
theorem fetch_window_invariant (env : Env) (t per i : String) (uc co : Bool) (mr : Nat)
    (out : FetchOut) (h : fetch_yfinance env t per i uc co mr = PyRes.ok out) :
    dfInWindow out.result = true ∧
    (out.cache = env.cache ∨
      ∃ stored, out.cache = (t, PyRes.ok stored) :: env.cache ∧
        dfInWindow stored = true) := by
  rcases fetch_cases env t per i uc co mr out h with ⟨df, _, hout⟩ | hout | ⟨hco, hout⟩
  · subst hout
    exact ⟨goodData_dfInWindow _ (goodData_filterToDateRange _), Or.inl rfl⟩
  · subst hout
    exact ⟨rfl, Or.inl rfl⟩
  · subst hout
    rcases fetchLoop_spec env t i uc mr 0 env.cache with ⟨h1, h2, h3⟩
    constructor
    · exact goodData_dfInWindow _ h1
    · by_cases hrows : (fetchLoop env t i uc 0 mr env.cache).result.rows = []
      · exact Or.inl (h2 hrows).1
      · rcases h3 hrows with ⟨hc, _⟩
        by_cases hus : (uc && env.saveOk) = true
        · simp only [hus, if_true] at hc
          exact Or.inr ⟨(fetchLoop env t i uc 0 mr env.cache).result, hc,
            goodData_dfInWindow _ h1⟩
        · rw [Bool.not_eq_true] at hus
          simp only [hus, Bool.false_eq_true, if_false] at hc
          exact Or.inl hc
theorem countAttempts_fetchData (oracle : HistReq → PyRes DataFrame) (t i : String) :
    countAttempts (fetchData oracle t i).2 = 0 := by
  simp only [fetchData]
  cases oracle (HistReq.startEnd t requestStart requestEnd i) with
  | ok df => rfl
  | exn =>
    cases oracle (HistReq.byPeriod t "5y" i) with
    | ok df => rfl
    | exn => rfl

theorem countAttempts_backoffEvs (attempt : Nat) :
    countAttempts (if 0 < attempt then [Event.sleepBackoff attempt] else []) = 0 := by
  by_cases ha : 0 < attempt
  · rw [if_pos ha]
    rfl
  · rw [if_neg ha]
    rfl

theorem fetchData_all_empty (env : Env) (t i : String)
    (hfail : ∀ k req, env.hist k req = PyRes.exn ∨
      ∃ df, env.hist k req = PyRes.ok df ∧ df.rows = []) (k : Nat) :
    (fetchData (env.hist k) t i).1.rows = [] := by
  simp only [fetchData]
  rcases hfail k (HistReq.startEnd t requestStart requestEnd i) with h1 | ⟨df, h1, hrows⟩
  · rw [h1]
    rcases hfail k (HistReq.byPeriod t "5y" i) with h2 | ⟨df2, h2, hrows2⟩
    · rw [h2]
      rfl
    · rw [h2]
      simp [hrows2]
  · rw [h1]
    simp [hrows]

theorem fetchLoop_exhaust (env : Env) (t i : String) (uc : Bool)
    (hfail : ∀ k req, env.hist k req = PyRes.exn ∨
      ∃ df, env.hist k req = PyRes.ok df ∧ df.rows = []) :
    ∀ fuel attempt cache, ∃ evs,
      fetchLoop env t i uc attempt fuel cache = ⟨emptyDF, cache, evs⟩ ∧
      countAttempts evs = fuel := by
  intro fuel
  induction fuel with
  | zero =>
    intro attempt cache
    exact ⟨[], rfl, rfl⟩
  | succ n ih =>
    intro attempt cache
    simp only [fetchLoop]
    have hie : (fetchData (env.hist attempt) t i).1.rows.isEmpty = true :=
      List.isEmpty_iff.mpr (fetchData_all_empty env t i hfail attempt)
    simp only [hie, if_true]
    by_cases hn : n = 0
    · simp only [hn, if_true]
      refine ⟨_, rfl, ?_⟩
      rw [countAttempts_append, countAttempts_cons_attempt,
        countAttempts_fetchData, countAttempts_backoffEvs]
    · simp only [hn, if_false]
      obtain ⟨evs0, heq, hcount⟩ := ih (attempt + 1) cache
      rw [heq]
      refine ⟨_, rfl, ?_⟩
      show countAttempts
        (((if 0 < attempt then [Event.sleepBackoff attempt] else []) ++
          Event.fetchAttempt attempt :: (fetchData (env.hist attempt) t i).2) ++ evs0) = n + 1
      rw [countAttempts_append, countAttempts_append, countAttempts_cons_attempt,
        countAttempts_fetchData, countAttempts_backoffEvs, hcount]
      omega

/-- Claim C3: with a cache miss and cache_only false, if the remote
collaborator raises or returns an empty result on every call, fetch performs
exactly max_retries attempts and returns an empty Series, never raising. -/
theorem retry_exhaustion (env : Env) (t per i : String) (uc : Bool) (mr : Nat)
    (hmiss : cacheLookup env.cache t = none)
    (hfail : ∀ k req, env.hist k req = PyRes.exn ∨
      ∃ df, env.hist k req = PyRes.ok df ∧ df.rows = []) :
    ∃ evs, fetch_yfinance env t per i uc false mr = PyRes.ok ⟨emptyDF, env.cache, evs⟩ ∧
      countAttempts evs = mr := by
  obtain ⟨evs0, heq, hcount⟩ := fetchLoop_exhaust env t i uc hfail mr 0 env.cache
  refine ⟨Event.sleepInit :: evs0, ?_, ?_⟩
  · unfold fetch_yfinance
    by_cases hb : (uc || false) = true
    · simp only [hb, if_true]
      rw [loadFromCache_of_none env.cache t hmiss]
      simp only [Bool.false_eq_true, if_false]
      rw [heq]
    · rw [Bool.not_eq_true] at hb
      simp only [hb, Bool.false_eq_true, if_false]
      rw [heq]
  · rw [countAttempts_sleepInit, hcount]
/-- Claim C5: starting with no cache entry, a first call with use_cache that
returns a non-empty Series persists that Series, and a second identical call
against the resulting cache returns the same Series with no remote call, no
sleep, and no further cache change; the first call ran at least one attempt. -/
theorem idempotent_caching (env : Env) (t per i : String) (mr : Nat) (out1 : FetchOut)
    (hmiss : cacheLookup env.cache t = none) (hsv : env.saveOk = true)
    (h : fetch_yfinance env t per i true false mr = PyRes.ok out1)
    (hne : out1.result.rows ≠ []) :
    cacheLookup out1.cache t = some (PyRes.ok out1.result) ∧
    fetch_yfinance { env with cache := out1.cache } t per i true false mr =
      PyRes.ok ⟨out1.result, out1.cache, []⟩ ∧
    1 ≤ countAttempts out1.events := by
  unfold fetch_yfinance at h
  simp only [Bool.or_false, if_true] at h
  rw [loadFromCache_of_none env.cache t hmiss] at h
  simp only [Bool.false_eq_true, if_false] at h
  injection h with h2
  subst h2
  rcases fetchLoop_spec env t i true mr 0 env.cache with ⟨h1, _, h3⟩
  have hne2 : (fetchLoop env t i true 0 mr env.cache).result.rows ≠ [] := hne
  rcases h3 hne2 with ⟨hc, hcount⟩
  rw [hsv] at hc
  simp only [Bool.and_self, if_true] at hc
  have hlk : cacheLookup (fetchLoop env t i true 0 mr env.cache).cache t =
      some (PyRes.ok (fetchLoop env t i true 0 mr env.cache).result) := by
    rw [hc]
    exact cacheLookup_cons_self t _ env.cache
  refine ⟨hlk, ?_, ?_⟩
  · unfold fetch_yfinance
    simp only [Bool.or_false, if_true]
    rw [loadFromCache_of_ok _ t _ hlk]
    rw [normalizeIndex_eq_self _ (fun r hr => (h1 r hr).1),
      filterToDateRange_eq_self _ h1]
  · show 1 ≤ countAttempts (Event.sleepInit :: (fetchLoop env t i true 0 mr env.cache).events)
    rw [countAttempts_sleepInit]
    exact hcount
theorem remote_mem_fetchData (oracle : HistReq → PyRes DataFrame) (t i : String) :
    ∃ q, Event.remoteCall q ∈ (fetchData oracle t i).2 := by
  simp only [fetchData]
  cases oracle (HistReq.startEnd t requestStart requestEnd i) with
  | ok df => exact ⟨HistReq.startEnd t requestStart requestEnd i, by simp⟩
  | exn =>
    cases oracle (HistReq.byPeriod t "5y" i) with
    | ok df => exact ⟨HistReq.startEnd t requestStart requestEnd i, by simp⟩
    | exn => exact ⟨HistReq.startEnd t requestStart requestEnd i, by simp⟩

theorem countRemote_pos_of_mem (q : HistReq) (evs : List Event)
    (h : Event.remoteCall q ∈ evs) : 1 ≤ countRemote evs := by
  unfold countRemote
  have hm : Event.remoteCall q ∈
      evs.filter (fun e => match e with | Event.remoteCall _ => true | _ => false) :=
    List.mem_filter.mpr ⟨h, rfl⟩
  exact List.length_pos.mpr (List.ne_nil_of_mem hm)

theorem remote_mem_fetchLoop (env : Env) (t i : String) (uc : Bool)
    (attempt n : Nat) (cache : Cache) :
    ∃ q, Event.remoteCall q ∈ (fetchLoop env t i uc attempt (n + 1) cache).events := by
  simp only [fetchLoop]
  obtain ⟨q, hq⟩ := remote_mem_fetchData (env.hist attempt) t i
  by_cases hemp : (fetchData (env.hist attempt) t i).1.rows.isEmpty
  · simp only [hemp, if_true]
    by_cases hn : n = 0
    · simp only [hn, if_true]
      exact ⟨q, by simp [List.mem_append, hq]⟩
    · simp only [hn, if_false]
      exact ⟨q, by simp [List.mem_append, hq]⟩
  · rw [Bool.not_eq_true] at hemp
    simp only [hemp, Bool.false_eq_true, if_false]
    exact ⟨q, by simp [List.mem_append, hq]⟩

/-- Claim C9 (amended): a call with use_cache false and cache_only false
leaves the cache unchanged, and performs at least one remote call provided
max_retries is at least 1 (with max_retries = 0 no remote call happens). -/
theorem noCache_no_write (env : Env) (t per i : String) (mr : Nat) (out : FetchOut)
    (h : fetch_yfinance env t per i false false mr = PyRes.ok out) :
    out.cache = env.cache ∧ (1 ≤ mr → 1 ≤ countRemote out.events) := by
  unfold fetch_yfinance at h
  simp only [Bool.or_false, Bool.false_eq_true, if_false] at h
  injection h with h2
  subst h2
  constructor
  · rcases fetchLoop_spec env t i false mr 0 env.cache with ⟨_, hem, hfull⟩
    by_cases hrows : (fetchLoop env t i false 0 mr env.cache).result.rows = []
    · exact (hem hrows).1
    · rcases hfull hrows with ⟨hc, _⟩
      simp only [Bool.false_and, Bool.false_eq_true, if_false] at hc
      exact hc
  · intro hmr
    cases mr with
    | zero => omega
    | succ n =>
      obtain ⟨q, hq⟩ := remote_mem_fetchLoop env t i false 0 n env.cache
      exact countRemote_pos_of_mem q _ (List.mem_cons_of_mem _ hq)
theorem lt_trans_dates (a b c : PyDateTime) (h1 : PyDateTime.lt a b = true)
    (h2 : PyDateTime.lt b c = true) : PyDateTime.lt a c = true := by
  simp only [PyDateTime.lt, Bool.or_eq_true, Bool.and_eq_true, decide_eq_true_eq,
    beq_iff_eq] at *
  omega

theorem strictlyIncreasing_iff_pairwise (l : List PyDateTime) :
    strictlyIncreasing l = true ↔
      List.Pairwise (fun a b => PyDateTime.lt a b = true) l := by
  induction l with
  | nil => simp [strictlyIncreasing]
  | cons a rest ih =>
    cases rest with
    | nil => simp [strictlyIncreasing]
    | cons b rest2 =>
      rw [show strictlyIncreasing (a :: b :: rest2) =
        (PyDateTime.lt a b && strictlyIncreasing (b :: rest2)) from rfl]
      constructor
      · intro h
        rw [Bool.and_eq_true] at h
        rcases h with ⟨hab, hrest⟩
        have hp := ih.mp hrest
        refine List.Pairwise.cons ?_ hp
        intro x hx
        rcases List.mem_cons.mp hx with rfl | hx2
        · exact hab
        · have hby := (List.pairwise_cons.mp hp).1 x hx2
          exact lt_trans_dates a b x hab hby
      · intro h
        rcases List.pairwise_cons.mp h with ⟨hall, hp⟩
        rw [Bool.and_eq_true]
        exact ⟨hall b (by simp), ih.mpr hp⟩

theorem strictlyIncreasing_sublist (l1 l2 : List PyDateTime) (hs : l1.Sublist l2)
    (h : strictlyIncreasing l2 = true) : strictlyIncreasing l1 = true :=
  (strictlyIncreasing_iff_pairwise l1).mpr
    (((strictlyIncreasing_iff_pairwise l2).mp h).sublist hs)

theorem datesOf_map_stripTz (l : List Row) :
    (l.map stripTz).map (fun r : Row => r.date.dt) = l.map (fun r : Row => r.date.dt) := by
  rw [List.map_map]
  exact rfl

theorem datesOf_filterToDateRange_sublist (df : DataFrame) :
    (datesOf (filterToDateRange df)).Sublist (datesOf df) := by
  unfold filterToDateRange
  by_cases he : df.rows.isEmpty
  · rw [if_pos he]
  · rw [if_neg he]
    unfold datesOf normalizeIndex
    simp only [he, Bool.false_eq_true, if_false]
    have h1 : ((df.rows.map stripTz).filter (fun r => inWindow r.date)).Sublist
        (df.rows.map stripTz) := List.filter_sublist _
    have h2 := h1.map (fun r : Row => r.date.dt)
    rw [datesOf_map_stripTz] at h2
    exact h2

theorem datesOf_normalizeIndex (df : DataFrame) :
    datesOf (normalizeIndex df) = datesOf df := by
  unfold normalizeIndex datesOf
  by_cases he : df.rows.isEmpty
  · rw [if_pos he]
  · rw [if_neg he]
    exact datesOf_map_stripTz df.rows

theorem fetchData_sorted (env : Env) (t i : String) (k : Nat)
    (hs : ∀ req df, env.hist k req = PyRes.ok df →
      strictlyIncreasing (datesOf df) = true) :
    strictlyIncreasing (datesOf (fetchData (env.hist k) t i).1) = true := by
  cases ho : env.hist k (HistReq.startEnd t requestStart requestEnd i) with
  | ok df =>
    have hfd : (fetchData (env.hist k) t i).1 =
        if df.rows.isEmpty then df else filterToDateRange df := by
      simp only [fetchData, ho]
    rw [hfd]
    have hdf := hs _ df ho
    by_cases he : df.rows.isEmpty
    · rw [if_pos he]
      exact hdf
    · rw [if_neg he]
      exact strictlyIncreasing_sublist _ _ (datesOf_filterToDateRange_sublist df) hdf
  | exn =>
    cases h2 : env.hist k (HistReq.byPeriod t "5y" i) with
    | ok df =>
      have hfd : (fetchData (env.hist k) t i).1 =
          if df.rows.isEmpty then df else filterToDateRange df := by
        simp only [fetchData, ho, h2]
      rw [hfd]
      have hdf := hs _ df h2
      by_cases he : df.rows.isEmpty
      · rw [if_pos he]
        exact hdf
      · rw [if_neg he]
        exact strictlyIncreasing_sublist _ _ (datesOf_filterToDateRange_sublist df) hdf
    | exn =>
      have hfd : (fetchData (env.hist k) t i).1 = emptyDF := by
        simp only [fetchData, ho, h2]
      rw [hfd]
      rfl

theorem fetchLoop_sorted (env : Env) (t i : String) (uc : Bool)
    (hs : ∀ k req df, env.hist k req = PyRes.ok df →
      strictlyIncreasing (datesOf df) = true) :
    ∀ fuel attempt cache,
      strictlyIncreasing (datesOf (fetchLoop env t i uc attempt fuel cache).result) = true := by
  intro fuel
  induction fuel with
  | zero =>
    intro attempt cache
    rfl
  | succ n ih =>
    intro attempt cache
    simp only [fetchLoop]
    by_cases hemp : (fetchData (env.hist attempt) t i).1.rows.isEmpty
    · simp only [hemp, if_true]
      by_cases hn : n = 0
      · simp only [hn, if_true]
        rfl
      · simp only [hn, if_false]
        exact ih (attempt + 1) cache
    · rw [Bool.not_eq_true] at hemp
      simp only [hemp, Bool.false_eq_true, if_false]
      show strictlyIncreasing (datesOf (ensureAdjClose (fetchData (env.hist attempt) t i).1)) = true
      rw [datesOf_ensureAdjClose]
      exact fetchData_sorted env t i attempt (fun req df h => hs attempt req df h)

/-- Claim C4 (amended): fetch preserves the arrival order of rows; whenever
every raw source (each successfully read cache entry and each remote
response) has strictly increasing dates, the returned Series has strictly
increasing dates and hence no duplicates.  The code itself never sorts or
deduplicates. -/
theorem ordering_when_sources_sorted (env : Env) (t per i : String) (uc co : Bool)
    (mr : Nat) (out : FetchOut)
    (h : fetch_yfinance env t per i uc co mr = PyRes.ok out)
    (hcache : ∀ tk df, cacheLookup env.cache tk = some (PyRes.ok df) →
      strictlyIncreasing (datesOf df) = true)
    (hremote : ∀ k req df, env.hist k req = PyRes.ok df →
      strictlyIncreasing (datesOf df) = true) :
    strictlyIncreasing (datesOf out.result) = true := by
  rcases fetch_cases env t per i uc co mr out h with ⟨df, hcl, hout⟩ | hout | ⟨hco, hout⟩
  · subst hout
    have hdf := hcache t df hcl
    have hsub := datesOf_filterToDateRange_sublist (normalizeIndex df)
    rw [datesOf_normalizeIndex] at hsub
    exact strictlyIncreasing_sublist _ _ hsub hdf
  · subst hout
    rfl
  · subst hout
    exact fetchLoop_sorted env t i uc hremote mr 0 env.cache
theorem lookupCell_append_ne (cells : List (String × Int)) (k c : String) (v : Int)
    (h : k ≠ c) : lookupCell (cells ++ [(k, v)]) c = lookupCell cells c := by
  induction cells with
  | nil => simp [lookupCell, h]
  | cons a rest ih =>
    cases a with
    | mk k2 v2 =>
      by_cases hk : k2 = c
      · simp [lookupCell, hk]
      · simp [lookupCell, hk, ih]

theorem lookupCell_append_self (cells : List (String × Int)) (k : String) (v : Int)
    (h : ∀ cv ∈ cells, cv.1 ≠ k) : lookupCell (cells ++ [(k, v)]) k = v := by
  induction cells with
  | nil => simp [lookupCell]
  | cons a rest ih =>
    cases a with
    | mk k2 v2 =>
      have hk : k2 ≠ k := h (k2, v2) (by simp)
      simp only [List.cons_append, lookupCell, if_neg hk]
      exact ih (fun cv hcv => h cv (by simp [hcv]))

theorem filterToDateRange_cols (df : DataFrame) :
    (filterToDateRange df).cols = df.cols := by
  unfold filterToDateRange
  by_cases he : df.rows.isEmpty
  · rw [if_pos he]
  · rw [if_neg he]
    simp [normalizeIndex, he]

theorem mem_filterToDateRange_cells (df : DataFrame) (r : Row)
    (hr : r ∈ (filterToDateRange df).rows) : ∃ r0 ∈ df.rows, r.cells = r0.cells := by
  unfold filterToDateRange at hr
  by_cases he : df.rows.isEmpty
  · rw [if_pos he] at hr
    exact ⟨r, hr, rfl⟩
  · rw [if_neg he] at hr
    simp only [normalizeIndex, he, Bool.false_eq_true, if_false] at hr
    rcases List.mem_filter.mp hr with ⟨hmem, _⟩
    rcases List.mem_map.mp hmem with ⟨r0, hr0, hst⟩
    refine ⟨r0, hr0, ?_⟩
    rw [← hst]
    rfl

theorem ensureAdjClose_property (df : DataFrame)
    (hnadj : "Adj Close" ∉ df.cols) (hclose : "Close" ∈ df.cols)
    (hcells : ∀ r ∈ df.rows, ∀ cv ∈ r.cells, cv.1 ∈ df.cols) :
    "Adj Close" ∈ (ensureAdjClose df).cols ∧
    ∀ r ∈ (ensureAdjClose df).rows,
      lookupCell r.cells "Adj Close" = lookupCell r.cells "Close" := by
  unfold ensureAdjClose
  rw [if_neg hnadj, if_pos hclose]
  constructor
  · simp
  · intro r hr
    rcases List.mem_map.mp hr with ⟨r0, hr0, heq⟩
    rw [← heq]
    show lookupCell (r0.cells ++ [("Adj Close", lookupCell r0.cells "Close")]) "Adj Close" =
      lookupCell (r0.cells ++ [("Adj Close", lookupCell r0.cells "Close")]) "Close"
    have hno : ∀ cv ∈ r0.cells, cv.1 ≠ "Adj Close" := by
      intro cv hcv hc
      apply hnadj
      rw [← hc]
      exact hcells r0 hr0 cv hcv
    rw [lookupCell_append_self _ _ _ hno,
      lookupCell_append_ne _ _ _ _ (by decide)]

theorem fetchData_success (oracle : HistReq → PyRes DataFrame) (t i : String)
    (hne : (fetchData oracle t i).1.rows ≠ []) :
    ∃ df, (oracle (HistReq.startEnd t requestStart requestEnd i) = PyRes.ok df ∨
           oracle (HistReq.byPeriod t "5y" i) = PyRes.ok df) ∧
      (fetchData oracle t i).1 = filterToDateRange df := by
  cases ho : oracle (HistReq.startEnd t requestStart requestEnd i) with
  | ok df =>
    have hfd : (fetchData oracle t i).1 =
        if df.rows.isEmpty then df else filterToDateRange df := by
      simp only [fetchData, ho]
    by_cases he : df.rows.isEmpty
    · rw [hfd, if_pos he] at hne
      exact absurd (List.isEmpty_iff.mp he) hne
    · refine ⟨df, Or.inl rfl, ?_⟩
      rw [hfd, if_neg he]
  | exn =>
    cases h2 : oracle (HistReq.byPeriod t "5y" i) with
    | ok df =>
      have hfd : (fetchData oracle t i).1 =
          if df.rows.isEmpty then df else filterToDateRange df := by
        simp only [fetchData, ho, h2]
      by_cases he : df.rows.isEmpty
      · rw [hfd, if_pos he] at hne
        exact absurd (List.isEmpty_iff.mp he) hne
      · refine ⟨df, Or.inr rfl, ?_⟩
        rw [hfd, if_neg he]
    | exn =>
      have hfd : (fetchData oracle t i).1 = emptyDF := by
        simp only [fetchData, ho, h2]
      rw [hfd] at hne
      exact absurd rfl hne

theorem fetchLoop_adjClose (env : Env) (t i : String) (uc : Bool)
    (hresp : ∀ k req df, env.hist k req = PyRes.ok df →
      "Adj Close" ∉ df.cols ∧ "Close" ∈ df.cols ∧
      ∀ r ∈ df.rows, ∀ cv ∈ r.cells, cv.1 ∈ df.cols) :
    ∀ fuel attempt cache,
      (fetchLoop env t i uc attempt fuel cache).result.rows ≠ [] →
      "Adj Close" ∈ (fetchLoop env t i uc attempt fuel cache).result.cols ∧
      ∀ r ∈ (fetchLoop env t i uc attempt fuel cache).result.rows,
        lookupCell r.cells "Adj Close" = lookupCell r.cells "Close" := by
  intro fuel
  induction fuel with
  | zero =>
    intro attempt cache hne
    exact absurd rfl hne
  | succ n ih =>
    intro attempt cache
    simp only [fetchLoop]
    by_cases hemp : (fetchData (env.hist attempt) t i).1.rows.isEmpty
    · simp only [hemp, if_true]
      by_cases hn : n = 0
      · simp only [hn, if_true]
        intro hne
        exact absurd rfl hne
      · simp only [hn, if_false]
        intro hne
        exact ih (attempt + 1) cache hne
    · rw [Bool.not_eq_true] at hemp
      simp only [hemp, Bool.false_eq_true, if_false]
      intro hne
      obtain ⟨df0, hor, hfd⟩ := fetchData_success (env.hist attempt) t i
        (by rwa [List.isEmpty_eq_false] at hemp)
      have hprops : "Adj Close" ∉ df0.cols ∧ "Close" ∈ df0.cols ∧
          ∀ r ∈ df0.rows, ∀ cv ∈ r.cells, cv.1 ∈ df0.cols := by
        rcases hor with hh | hh
        · exact hresp attempt _ df0 hh
        · exact hresp attempt _ df0 hh
      rcases hprops with ⟨hnadj, hclose, hcells⟩
      show "Adj Close" ∈ (ensureAdjClose (fetchData (env.hist attempt) t i).1).cols ∧
        ∀ r ∈ (ensureAdjClose (fetchData (env.hist attempt) t i).1).rows,
          lookupCell r.cells "Adj Close" = lookupCell r.cells "Close"
      rw [hfd]
      have hnadj2 : "Adj Close" ∉ (filterToDateRange df0).cols := by
        rw [filterToDateRange_cols]
        exact hnadj
      have hclose2 : "Close" ∈ (filterToDateRange df0).cols := by
        rw [filterToDateRange_cols]
        exact hclose
      have hcells2 : ∀ r ∈ (filterToDateRange df0).rows, ∀ cv ∈ r.cells,
          cv.1 ∈ (filterToDateRange df0).cols := by
        intro r hr cv hcv
        rcases mem_filterToDateRange_cells df0 r hr with ⟨r0, hr0, hcc⟩
        rw [filterToDateRange_cols]
        rw [hcc] at hcv
        exact hcells r0 hr0 cv hcv
      exact ensureAdjClose_property _ hnadj2 hclose2 hcells2

/-- Claim C6 (amended): the Adj-Close defaulting happens on the remote path
only: with a cache miss, whenever every remote response contains Close but
no Adj Close (cells keyed by its columns), a returned non-empty Series has
the Adj Close column and, on every row, Adj Close equal to Close.  The
cache-hit path returns the cached columns unchanged, with no defaulting. -/
theorem adjClose_default_remote (env : Env) (t per i : String) (uc : Bool) (mr : Nat)
    (out : FetchOut) (hmiss : cacheLookup env.cache t = none)
    (hresp : ∀ k req df, env.hist k req = PyRes.ok df →
      "Adj Close" ∉ df.cols ∧ "Close" ∈ df.cols ∧
      ∀ r ∈ df.rows, ∀ cv ∈ r.cells, cv.1 ∈ df.cols)
    (h : fetch_yfinance env t per i uc false mr = PyRes.ok out)
    (hne : out.result.rows ≠ []) :
    "Adj Close" ∈ out.result.cols ∧
    ∀ r ∈ out.result.rows, lookupCell r.cells "Adj Close" = lookupCell r.cells "Close" := by
  unfold fetch_yfinance at h
  by_cases hb : (uc || false) = true
  · simp only [hb, if_true] at h
    rw [loadFromCache_of_none env.cache t hmiss] at h
    simp only [Bool.false_eq_true, if_false] at h
    injection h with h2
    subst h2
    exact fetchLoop_adjClose env t i uc hresp mr 0 env.cache hne
  · rw [Bool.not_eq_true] at hb
    simp only [hb, Bool.false_eq_true, if_false] at h
    injection h with h2
    subst h2
    exact fetchLoop_adjClose env t i uc hresp mr 0 env.cache hne
/-- Claim C4 counterexample: a cached frame whose two in-window rows arrive
in decreasing date order is returned by fetch in that same order, so the
returned dates are not strictly increasing. -/
theorem ordering_counterexample :
    strictlyIncreasing (datesOf
      (outOf (fetch_yfinance envCacheUnsorted "T" "2y" "1d" true false 3)).result) = false := by
  decide

/-- Claim C4 witness for the amended theorem: with sorted sources the
returned dates are strictly increasing. -/
theorem ordering_witness :
    strictlyIncreasing (datesOf
      (outOf (fetch_yfinance envRemoteClose "T" "2y" "1d" true false 1)).result) = true :=
  ordering_when_sources_sorted envRemoteClose "T" "2y" "1d" true false 1
    (outOf (fetch_yfinance envRemoteClose "T" "2y" "1d" true false 1)) rfl
    (fun tk df h => Option.noConfusion h)
    (fun k req df h => by
      injection h with h2
      rw [← h2]
      decide)

/-- Claim C6 counterexample: a cache hit whose stored frame has Close but no
Adj Close is returned without any Adj Close column, though non-empty. -/
theorem adjClose_counterexample :
    "Adj Close" ∉ (outOf (fetch_yfinance envCacheClose "T" "2y" "1d" true false 3)).result.cols ∧
    "Close" ∈ (outOf (fetch_yfinance envCacheClose "T" "2y" "1d" true false 3)).result.cols ∧
    (outOf (fetch_yfinance envCacheClose "T" "2y" "1d" true false 3)).result.rows ≠ [] := by
  decide

/-- Claim C6 witness for the amended theorem: a remote response with Close
and no Adj Close comes back with Adj Close equal to Close on every row. -/
theorem adjClose_default_witness :
    "Adj Close" ∈ (outOf (fetch_yfinance envRemoteClose "T" "2y" "1d" true false 1)).result.cols ∧
    ∀ r ∈ (outOf (fetch_yfinance envRemoteClose "T" "2y" "1d" true false 1)).result.rows,
      lookupCell r.cells "Adj Close" = lookupCell r.cells "Close" :=
  adjClose_default_remote envRemoteClose "T" "2y" "1d" true 1
    (outOf (fetch_yfinance envRemoteClose "T" "2y" "1d" true false 1)) rfl
    (fun k req df h => by
      injection h with h2
      rw [← h2]
      exact ⟨by decide, by decide, by decide⟩)
    rfl (by decide)

/-- Claim C9 counterexample: with max_retries = 0, a use_cache = false,
cache_only = false call performs no remote call at all (it only sleeps
once), refuting "fetch performs a remote fetch" as universally stated. -/
theorem noCache_counterexample :
    fetch_yfinance envFailAll "T" "2y" "1d" false false 0 =
      PyRes.ok ⟨emptyDF, [], [Event.sleepInit]⟩ ∧
    countRemote (outOf (fetch_yfinance envFailAll "T" "2y" "1d" false false 0)).events = 0 := by
  exact ⟨rfl, rfl⟩

/-- Claim C1 witness: a cache hit holding only out-of-window rows returns a
window-respecting (here empty) Series and leaves the cache unchanged. -/
theorem fetch_window_invariant_witness :
    dfInWindow (outOf (fetch_yfinance envFutureCache "T" "2y" "1d" true false 3)).result = true ∧
    ((outOf (fetch_yfinance envFutureCache "T" "2y" "1d" true false 3)).cache = envFutureCache.cache ∨
      ∃ stored, (outOf (fetch_yfinance envFutureCache "T" "2y" "1d" true false 3)).cache =
        ("T", PyRes.ok stored) :: envFutureCache.cache ∧ dfInWindow stored = true) :=
  fetch_window_invariant envFutureCache "T" "2y" "1d" true false 3
    (outOf (fetch_yfinance envFutureCache "T" "2y" "1d" true false 3)) rfl

/-- Claim C3 witness: with an always-raising remote and max_retries = 3,
fetch makes exactly 3 attempts and returns an empty Series. -/
theorem retry_exhaustion_witness :
    ∃ evs, fetch_yfinance envFailAll "T" "2y" "1d" true false 3 =
      PyRes.ok ⟨emptyDF, envFailAll.cache, evs⟩ ∧ countAttempts evs = 3 :=
  retry_exhaustion envFailAll "T" "2y" "1d" true 3 rfl (fun k req => Or.inl rfl)

/-- Claim C5 witness: a successful first call persists its result and the
second call returns it from cache with no events. -/
theorem idempotent_caching_witness :
    cacheLookup (outOf (fetch_yfinance envRemoteClose "T" "2y" "1d" true false 1)).cache "T" =
      some (PyRes.ok (outOf (fetch_yfinance envRemoteClose "T" "2y" "1d" true false 1)).result) ∧
    fetch_yfinance { envRemoteClose with
        cache := (outOf (fetch_yfinance envRemoteClose "T" "2y" "1d" true false 1)).cache }
        "T" "2y" "1d" true false 1 =
      PyRes.ok ⟨(outOf (fetch_yfinance envRemoteClose "T" "2y" "1d" true false 1)).result,
        (outOf (fetch_yfinance envRemoteClose "T" "2y" "1d" true false 1)).cache, []⟩ ∧
    1 ≤ countAttempts (outOf (fetch_yfinance envRemoteClose "T" "2y" "1d" true false 1)).events :=
  idempotent_caching envRemoteClose "T" "2y" "1d" 1
    (outOf (fetch_yfinance envRemoteClose "T" "2y" "1d" true false 1)) rfl rfl rfl (by decide)

/-- Claim C7 witness: cache-only with no entry yields the empty outcome with
no remote call and no sleep, here with max_retries = 5. -/
theorem cacheOnly_witness :
    outOf (fetch_yfinance envFailAll "T" "2y" "1d" false true 5) =
      ⟨emptyDF, envFailAll.cache, []⟩ ∧
    countRemote (outOf (fetch_yfinance envFailAll "T" "2y" "1d" false true 5)).events = 0 ∧
    countSleeps (outOf (fetch_yfinance envFailAll "T" "2y" "1d" false true 5)).events = 0 :=
  cacheOnly_miss_empty envFailAll "T" "2y" "1d" false 5
    (outOf (fetch_yfinance envFailAll "T" "2y" "1d" false true 5)) rfl rfl

/-- Claim C8 witness: a cache hit that covers none of the window still
returns immediately (an empty Series) with no remote call. -/
theorem cacheHit_witness :
    (outOf (fetch_yfinance envFutureCache "T" "2y" "1d" true false 3)).result =
      filterToDateRange (normalizeIndex dfFuture) ∧
    (outOf (fetch_yfinance envFutureCache "T" "2y" "1d" true false 3)).cache =
      envFutureCache.cache ∧
    countRemote (outOf (fetch_yfinance envFutureCache "T" "2y" "1d" true false 3)).events = 0 ∧
    countSleeps (outOf (fetch_yfinance envFutureCache "T" "2y" "1d" true false 3)).events = 0 :=
  cacheHit_immediate envFutureCache "T" "2y" "1d" true false 3 dfFuture
    (outOf (fetch_yfinance envFutureCache "T" "2y" "1d" true false 3)) rfl rfl rfl

/-- Claim C9 witness for the amended theorem: with max_retries = 2 the
use_cache = false call leaves the cache unchanged and does call the remote. -/
theorem noCache_no_write_witness :
    (outOf (fetch_yfinance envFailAll "T" "2y" "1d" false false 2)).cache = envFailAll.cache ∧
    (1 ≤ 2 → 1 ≤ countRemote (outOf (fetch_yfinance envFailAll "T" "2y" "1d" false false 2)).events) :=
  noCache_no_write envFailAll "T" "2y" "1d" 2
    (outOf (fetch_yfinance envFailAll "T" "2y" "1d" false false 2)) rfl
end AssetForecast
